import Mathlib

/-!
Verification development for the SDE-EDG dataset loader (`datasets/sine.py`)
and feature-extractor architectures (`network/model_func.py`).

Scalar values are modelled as real numbers; the `.astype(np.float32)` and
`.astype(np.int64)` casts are modelled as identity maps on the model's
scalar types (`ℝ` resp. `ℤ`).
-/

set_option autoImplicit false

namespace SDEEDG

/-! ### Dataset loader: `datasets/sine.py` -/

/-- The content of a cached pickle: a 2-d `data` array (a list of feature
rows), a 1-d `label` array and a 1-d `domain` array, all with one entry
per sample. -/
structure DataPkl where
  data : List (List ℝ)
  label : List ℤ
  domain : List ℤ

/-- A `TensorDataset(x, y)` as produced by `ToySine.process_dataset`. -/
structure TensorDS where
  x : List (List ℝ)
  y : List ℤ
deriving Inhabited

/-- Errors raised by `MultipleEnvironmentSine.__init__` / `_load_cache`. -/
inductive SineError where
  | valueError : String → SineError
  | notImplementedError : SineError
deriving DecidableEq

/-- Column `j` of a 2-d array stored as a list of rows (entries of short
rows default to `0`; well-formed pickles have rows of uniform length). -/
def column (rows : List (List ℝ)) (j : ℕ) : List ℝ :=
  rows.map (fun r => r.getD j 0)

/-- Number of feature columns of a 2-d array (numpy arrays are rectangular,
so the width is the length of the first row). -/
def width (rows : List (List ℝ)) : ℕ :=
  (rows.headD []).length

/-- numpy `mean` of a 1-d array. -/
noncomputable def colMean (xs : List ℝ) : ℝ :=
  xs.sum / xs.length

/-- numpy population variance (`ddof = 0`) of a 1-d array. -/
noncomputable def colVar (xs : List ℝ) : ℝ :=
  ((xs.map (fun x => (x - colMean xs) ^ 2)).sum) / xs.length

/-- numpy `std` of a 1-d array: the square root of the population
variance. -/
noncomputable def colStd (xs : List ℝ) : ℝ :=
  Real.sqrt (colVar xs)

/-- `data.mean(0, keepdims=True)`: the per-column means. -/
noncomputable def npMean0 (rows : List (List ℝ)) : List ℝ :=
  (List.range (width rows)).map (fun j => colMean (column rows j))

/-- `data.std(0, keepdims=True)`: the per-column standard deviations. -/
noncomputable def npStd0 (rows : List (List ℝ)) : List ℝ :=
  (List.range (width rows)).map (fun j => colStd (column rows j))

/-- One row of `(data - data_mean) / data_std`: entry `j` is
`(row[j] - means[j]) / stds[j]` (broadcasting over rows). -/
noncomputable def normalizeRow (means stds : List ℝ) (row : List ℝ) : List ℝ :=
  (row.zip (means.zip stds)).map (fun p => (p.1 - p.2.1) / p.2.2)

/-- `(data - data.mean(0)) / data.std(0)`, the whole normalization step of
`MultipleEnvironmentSine.__init__`: every row is normalized with the
column statistics of the full `data` array. -/
noncomputable def normalizeData (rows : List (List ℝ)) : List (List ℝ) :=
  rows.map (normalizeRow (npMean0 rows) (npStd0 rows))

/-- numpy boolean-mask indexing `xs[mask]`: keep the entries whose mask
bit is `True`, in order. -/
def maskSelect {α : Type} (mask : List Bool) (xs : List α) : List α :=
  ((mask.zip xs).filter (fun p => p.1)).map (fun p => p.2)

/-- `.astype(np.float32)` on a 2-d array, modelled as the identity on real
scalars. -/
def astypeFloat32 (rows : List (List ℝ)) : List (List ℝ) := rows

/-- `.astype(np.int64)` on a 1-d integer array, modelled as the identity. -/
def astypeInt64 (xs : List ℤ) : List ℤ := xs

/-- `MultipleEnvironmentSine._load_cache`: the `Option` argument models
whether `os.path.exists(cache_path)` holds and, when it does, which pickle
the file contains; a missing file raises `NotImplementedError`. -/
def loadCache (cache : Option DataPkl) : Except SineError DataPkl :=
  match cache with
  | some data_pkl => .ok data_pkl
  | none => .error .notImplementedError

/-- `MultipleEnvironmentSine.__init__` with `dataset_transform` being
`ToySine.process_dataset` (wrap the arrays in a `TensorDataset`).
`root = none` models `root is None`; otherwise the inner option models the
cache file looked up at that path.  Returns the constructed
`self.datasets`, or the exception raised before any dataset is built. -/
noncomputable def initSine (root : Option (Option DataPkl)) (environments : List ℤ) :
    Except SineError (List TensorDS) :=
  match root with
  | none => .error (.valueError "Data directory not specified!")
  | some cache =>
    match loadCache cache with
    | .error e => .error e
    | .ok data_pkl =>
      let normalize := true
      let pkl := if normalize then
          { data_pkl with data := normalizeData data_pkl.data }
        else data_pkl
      .ok ((List.range environments.length).map (fun (domain_id : ℕ) =>
        let idx := pkl.domain.map (fun v => v == ((domain_id : ℕ) : ℤ))
        { x := astypeFloat32 (maskSelect idx pkl.data),
          y := astypeInt64 (maskSelect idx pkl.label) }))

/-- Selecting the entries of `xs` whose sample sits in domain `d`,
written with an explicit filter over the sample/domain pairs.  This is
the specification-side description of what numpy boolean-mask indexing
with `domain == d` computes. -/
def filterByDomain {α : Type} (xs : List α) (doms : List ℤ) (d : ℤ) : List α :=
  ((xs.zip doms).filter (fun p => p.2 == d)).map (fun p => p.1)

/-- `ToySine.__init__`: `environments = list(np.arange(24))`. -/
def toySineEnvironments : List ℤ :=
  (List.range 24).map (fun (n : ℕ) => (n : ℤ))

/-- `ToySine.__init__` delegating to `MultipleEnvironmentSine.__init__`. -/
noncomputable def initToySine (root : Option (Option DataPkl)) :
    Except SineError (List TensorDS) :=
  initSine root toySineEnvironments

/-! ### Feature extractors: `network/model_func.py` -/

/-- Pointwise `F.relu` on a feature vector. -/
def relu (x : List ℝ) : List ℝ :=
  x.map (fun v => max v 0)

/-- An `nn.Linear` layer: a weight matrix (one row per output feature)
and a bias vector. -/
structure Linear where
  weight : List (List ℝ)
  bias : List ℝ

/-- Dot product of weight row and input vector. -/
def dot (w x : List ℝ) : ℝ :=
  ((w.zip x).map (fun p => p.1 * p.2)).sum

/-- Applying an `nn.Linear` layer to a feature vector. -/
def Linear.apply (l : Linear) (x : List ℝ) : List ℝ :=
  (l.weight.zip l.bias).map (fun wb => dot wb.1 x + wb.2)

/-- `nn.Linear(nIn, nOut)` whose (randomly initialized) parameters are
supplied by the functions `w` (weights) and `b` (biases). -/
def mkLinear (nIn nOut : ℕ) (w : ℕ → ℕ → ℝ) (b : ℕ → ℝ) : Linear :=
  { weight := (List.range nOut).map (fun o => (List.range nIn).map (w o)),
    bias := (List.range nOut).map b }

/-- `LinearFeatExtractor`: its depth, its layers and its `n_outputs`
attribute.  `dropout` is the (possibly stochastic) function computed by
`nn.Dropout`, kept abstract; in Python the `dropout`/`hiddens`/`output`
attributes only exist when `mlp_depth > 1`, here the fields are always
present but `forward` ignores them when `num_layers ≤ 1`, exactly as the
Python code never reads them in that case. -/
structure LinearFeatExtractor where
  num_layers : ℤ
  input : Linear
  dropout : List ℝ → List ℝ
  hiddens : List Linear
  output : Linear
  n_outputs : ℕ

/-- `LinearFeatExtractor.__init__`: `input_shape[-1]` input features, a
first linear layer to `mlp_width`, `mlp_depth - 2` hidden layers of width
`mlp_width`, an output layer to `output_dim`, and `n_outputs = output_dim`.
The random parameter initializations are supplied by `wI`/`bI` (input
layer), `wH`/`bH` (hidden layer `k`) and `wO`/`bO` (output layer); `drop`
is the function computed by `nn.Dropout(hparams['mlp_dropout'])`. -/
def LinearFeatExtractor.init (input_shape : List ℕ) (output_dim : ℕ)
    (mlp_depth : ℤ) (mlp_width : ℕ)
    (drop : List ℝ → List ℝ)
    (wI : ℕ → ℕ → ℝ) (bI : ℕ → ℝ)
    (wH : ℕ → ℕ → ℕ → ℝ) (bH : ℕ → ℕ → ℝ)
    (wO : ℕ → ℕ → ℝ) (bO : ℕ → ℝ) : LinearFeatExtractor :=
  let n_inputs := input_shape.getLastD 0
  { num_layers := mlp_depth,
    input := mkLinear n_inputs mlp_width wI bI,
    dropout := drop,
    hiddens := (List.range (mlp_depth - 2).toNat).map
      (fun k => mkLinear mlp_width mlp_width (wH k) (bH k)),
    output := mkLinear mlp_width output_dim wO bO,
    n_outputs := output_dim }

/-- `LinearFeatExtractor.forward`: the input layer, then, only when
`num_layers > 1`, dropout and ReLU, each hidden layer followed by dropout
and ReLU, and the output layer. -/
def LinearFeatExtractor.forward (m : LinearFeatExtractor) (x : List ℝ) :
    List ℝ :=
  let x := m.input.apply x
  if 1 < m.num_layers then
    let x := relu (m.dropout x)
    let x := m.hiddens.foldl (fun a hidden => relu (m.dropout (hidden.apply a))) x
    m.output.apply x
  else
    x

/-- `MNIST_CNN`, embedded at the tensor-shape level (the only facts the
specification claims about it concern output dimensions): the channel
counts of its four convolutions and its `n_outputs` attribute.  The
instance attribute `n_outputs = output_dim` set in `__init__` shadows the
class attribute `n_outputs = 128`. -/
structure MNIST_CNN where
  conv1_out : ℕ
  conv2_out : ℕ
  conv3_out : ℕ
  conv4_out : ℕ
  n_outputs : ℕ

/-- `MNIST_CNN.__init__`: convolutions with 64, 128, 128 and `output_dim`
output channels, and `n_outputs = output_dim`. -/
def MNIST_CNN.init (input_shape : List ℕ) (output_dim : ℕ) : MNIST_CNN :=
  { conv1_out := 64, conv2_out := 128, conv3_out := 128,
    conv4_out := output_dim, n_outputs := output_dim }

/-- Shape of a batched image tensor: `(N, C, H, W)`. -/
structure TShape where
  n : ℕ
  c : ℕ
  h : ℕ
  w : ℕ
deriving DecidableEq

/-- Output shape of an `nn.Conv2d` with square kernel `k`, stride `s` and
padding `p` (`F.relu` and `nn.GroupNorm` preserve the shape). -/
def conv2dShape (outC k s p : ℕ) (sh : TShape) : TShape :=
  { n := sh.n, c := outC,
    h := (sh.h + 2 * p - k) / s + 1,
    w := (sh.w + 2 * p - k) / s + 1 }

/-- `MNIST_CNN.forward` at the shape level: the four convolution blocks,
`nn.AdaptiveAvgPool2d((1, 1))`, then `x.view(len(x), -1)`; the result is
the shape `(N, F)` of the returned matrix, as a pair. -/
def MNIST_CNN.forwardShape (m : MNIST_CNN) (sh : TShape) : ℕ × ℕ :=
  let sh := conv2dShape m.conv1_out 3 1 1 sh
  let sh := conv2dShape m.conv2_out 3 2 1 sh
  let sh := conv2dShape m.conv3_out 3 1 1 sh
  let sh := conv2dShape m.conv4_out 3 1 1 sh
  let sh : TShape := { n := sh.n, c := sh.c, h := 1, w := 1 }
  (sh.n, sh.c * sh.h * sh.w)

/-- The `Identity` module: it only stores its `n_outputs` attribute. -/
structure IdentityFE where
  n_outputs : ℕ

/-- `Identity.__init__`: `n_outputs = input_shape[-1]`. -/
def IdentityFE.init (input_shape : List ℕ) (output_dim : ℕ) : IdentityFE :=
  { n_outputs := input_shape.getLastD 0 }

/-- `Identity.forward`: return the input unchanged (it works on any
tensor, hence the polymorphic type). -/
def IdentityFE.forward {α : Type} (m : IdentityFE) (x : α) : α := x

/-! ### ResNet: channel adaptation and frozen batchnorm -/

/-- An `nn.Conv2d` as far as the channel-adaptation code inspects it:
its constructor arguments and, for each input channel `i`, the weight
slice `weight.data[:, i, :, :]` (an opaque value of type `W`). -/
structure Conv2dSpec (W : Type) where
  in_channels : ℕ
  out_channels : ℕ
  kernel_size : ℕ × ℕ
  stride : ℕ × ℕ
  padding : ℕ × ℕ
  hasBias : Bool
  weight : ℕ → W

/-- Pointwise update of a function, modelling one slice assignment
`weight.data[:, i, :, :] = v`. -/
def updSlice {W : Type} (f : ℕ → W) (i : ℕ) (v : W) : ℕ → W :=
  fun j => if j = i then v else f j

/-- The loop `for i in range(nc): conv1.weight.data[:, i, :, :] =
tmp[:, i % 3, :, :]`, starting from the fresh layer's random
initialization `init`. -/
def adaptLoop {W : Type} (tmp : ℕ → W) (init : ℕ → W) (nc : ℕ) : ℕ → W :=
  (List.range nc).foldl (fun f i => updSlice f i (tmp (i % 3))) init

/-- The channel-adaptation block of `ResNet.__init__`: when
`input_shape[0] != 3`, replace `conv1` by a fresh bias-free
`nn.Conv2d(nc, 64, kernel_size=(7, 7), stride=(2, 2), padding=(3, 3))`
(with random weights `freshW`) and copy the pretrained slices in a loop;
otherwise leave `conv1` alone. -/
def adaptConv1 {W : Type} (nc : ℕ) (conv1 : Conv2dSpec W) (freshW : ℕ → W) :
    Conv2dSpec W :=
  if nc ≠ 3 then
    let tmp := conv1.weight
    { in_channels := nc, out_channels := 64,
      kernel_size := (7, 7), stride := (2, 2), padding := (3, 3),
      hasBias := false,
      weight := adaptLoop tmp freshW nc }
  else
    conv1

/-- A submodule of `self.network` as far as `freeze_bn`/`train` inspect
it: whether it is an `nn.BatchNorm2d`, and its `training` flag. -/
structure TModule where
  isBatchNorm : Bool
  training : Bool
deriving DecidableEq

/-- `nn.Module.train(mode)`: set the `training` flag of the module and of
every submodule (here: of every module reached by `self.network.modules()`,
flattened into a list). -/
def setTrainAll (mode : Bool) (ms : List TModule) : List TModule :=
  ms.map (fun m => { m with training := mode })

/-- `ResNet.freeze_bn`: put every `nn.BatchNorm2d` submodule of
`self.network` in eval mode (`training = False`). -/
def freeze_bn (ms : List TModule) : List TModule :=
  ms.map (fun m => if m.isBatchNorm then { m with training := false } else m)

/-- `ResNet.train(mode)`: `super().train(mode)` followed by
`self.freeze_bn()`. -/
def resnetTrain (mode : Bool) (ms : List TModule) : List TModule :=
  freeze_bn (setTrainAll mode ms)

/-- The tail of `ResNet.__init__` acting on the submodules of
`self.network` (as loaded from torchvision): `self.freeze_bn()` is called
before the constructor returns. -/
def resnetInitModules (ms : List TModule) : List TModule :=
  freeze_bn ms

/-! ### Concrete instances used in closed checks -/

/-- A depth-1 `LinearFeatExtractor` (no hidden stack is ever applied). -/
def feShallow : LinearFeatExtractor :=
  ⟨1, ⟨[[1]], [0]⟩, fun v => v, [], ⟨[[1]], [0]⟩, 1⟩

/-- A depth-2 `LinearFeatExtractor` (hidden stack and output layer run). -/
def feDeep : LinearFeatExtractor :=
  ⟨2, ⟨[[1]], [0]⟩, fun v => v, [], ⟨[[2]], [0]⟩, 1⟩

/-- The constructor output for `mlp_depth = 1`, `mlp_width = 5`,
`output_dim = 3` and all-zero parameter initialization. -/
def feC5 : LinearFeatExtractor :=
  LinearFeatExtractor.init [2] 3 1 5 (fun v => v)
    (fun _ _ => 0) (fun _ => 0) (fun _ _ _ => 0) (fun _ _ => 0)
    (fun _ _ => 0) (fun _ => 0)

/-- The constructor output for `mlp_depth = 2`, `mlp_width = 4`,
`output_dim = 3` and all-zero parameter initialization. -/
def feDeepInit : LinearFeatExtractor :=
  LinearFeatExtractor.init [1] 3 2 4 (fun v => v)
    (fun _ _ => 0) (fun _ => 0) (fun _ _ _ => 0) (fun _ _ => 0)
    (fun _ _ => 0) (fun _ => 0)

/-- A stand-in for the pretrained 3-channel `conv1` of a torchvision
ResNet, with distinguishable per-channel weight slices. -/
def exConv : Conv2dSpec ℕ :=
  ⟨3, 64, (7, 7), (2, 2), (3, 3), false, fun i => i⟩

/-- A stand-in for the random initialization of a freshly constructed
`nn.Conv2d`. -/
def exFresh : ℕ → ℕ := fun _ => 99

/-- Per-domain normalization as claimed by the specification sentence on
normalization: partition the raw data by domain first, then normalize
each partition with the mean and standard deviation of that partition
alone.  This is the specification-side definition, to be compared with
what `initSine` actually computes. -/
noncomputable def perDomainNormalizedData (pkl : DataPkl) (d : ℤ) : List (List ℝ) :=
  normalizeData (filterByDomain pkl.data pkl.domain d)

/-- A concrete two-domain pickle used to compare global with per-domain
normalization: domain 0 holds the rows `[0]` and `[2]`, domain 1 the rows
`[10]` and `[12]`. -/
def examplePkl : DataPkl :=
  { data := [[0], [2], [10], [12]], label := [0, 0, 0, 0], domain := [0, 0, 1, 1] }

/-! ### Helper lemmas -/

theorem maskSelect_beq_eq_filterByDomain {α : Type} (d : ℤ) :
    ∀ (xs : List α) (doms : List ℤ), xs.length = doms.length →
      maskSelect (doms.map (fun v => v == d)) xs = filterByDomain xs doms d
  | [], [], _ => rfl
  | [], _ :: _, h => by simp at h
  | _ :: _, [], h => by simp at h
  | x :: xs, v :: doms, h => by
      have ih := maskSelect_beq_eq_filterByDomain d xs doms (by simpa using h)
      by_cases hv : v = d
      · simpa [maskSelect, filterByDomain, List.filter_cons, hv] using ih
      · simpa [maskSelect, filterByDomain, List.filter_cons, hv] using ih

theorem length_normalizeData (rows : List (List ℝ)) :
    (normalizeData rows).length = rows.length := by
  simp [normalizeData]

/-- The success case of `MultipleEnvironmentSine.__init__`, characterized
through `filterByDomain`: dataset `d` holds exactly the globally
normalized rows and the labels of the samples whose `domain` entry is
`d`, in their original order. -/
theorem initSine_ok (pkl : DataPkl) (envs : List ℤ)
    (h1 : pkl.data.length = pkl.domain.length)
    (h2 : pkl.label.length = pkl.domain.length) :
    initSine (some (some pkl)) envs =
      .ok ((List.range envs.length).map (fun (d : ℕ) =>
        { x := filterByDomain (normalizeData pkl.data) pkl.domain (d : ℤ),
          y := filterByDomain pkl.label pkl.domain (d : ℤ) })) := by
  simp only [initSine, loadCache, if_true]
  refine congrArg Except.ok (List.map_congr_left (fun d _ => ?_))
  have hx : (normalizeData pkl.data).length = pkl.domain.length := by
    simpa [length_normalizeData] using h1
  refine congrArg₂ TensorDS.mk ?_ ?_
  · simpa [astypeFloat32] using
      maskSelect_beq_eq_filterByDomain (d : ℤ) (normalizeData pkl.data) pkl.domain hx
  · simpa [astypeInt64] using
      maskSelect_beq_eq_filterByDomain (d : ℤ) pkl.label pkl.domain h2

theorem npMean0_getD (rows : List (List ℝ)) (j : ℕ) (hj : j < width rows) :
    (npMean0 rows).getD j 0 = colMean (column rows j) := by
  rw [npMean0, List.getD_eq_getElem _ _ (by simpa using hj)]
  simp

theorem npStd0_getD (rows : List (List ℝ)) (j : ℕ) (hj : j < width rows) :
    (npStd0 rows).getD j 0 = colStd (column rows j) := by
  rw [npStd0, List.getD_eq_getElem _ _ (by simpa using hj)]
  simp

theorem normalizeRow_getD (means stds row : List ℝ) (j : ℕ)
    (hj : j < row.length) (h1 : j < means.length) (h2 : j < stds.length) :
    (normalizeRow means stds row).getD j 0
      = (row.getD j 0 - means.getD j 0) / stds.getD j 0 := by
  have hzz : j < (row.zip (means.zip stds)).length := by
    simp only [List.length_zip]
    omega
  rw [List.getD_eq_getElem row 0 hj, List.getD_eq_getElem means 0 h1,
    List.getD_eq_getElem stds 0 h2]
  rw [normalizeRow,
    List.getD_eq_getElem ((row.zip (means.zip stds)).map
      (fun p => (p.1 - p.2.1) / p.2.2)) 0 (by simpa using hzz)]
  simp [List.getElem_zip]

/-- Entry `(i, j)` of the normalized data array: the statistics in the
quotient are those of column `j` over all rows of the array. -/
theorem normalizeData_getD (rows : List (List ℝ)) (i j : ℕ)
    (hi : i < rows.length) (hj : j < width rows)
    (hrow : (rows.getD i []).length = width rows) :
    ((normalizeData rows).getD i []).getD j 0
      = ((rows.getD i []).getD j 0 - colMean (column rows j))
          / colStd (column rows j) := by
  have hmap : (rows.map (normalizeRow (npMean0 rows) (npStd0 rows))).getD i []
      = normalizeRow (npMean0 rows) (npStd0 rows) (rows.getD i []) := by
    rw [List.getD_eq_getElem (rows.map (normalizeRow (npMean0 rows) (npStd0 rows))) []
      (by simpa using hi)]
    rw [List.getElem_map, List.getD_eq_getElem rows [] hi]
  rw [show normalizeData rows = rows.map (normalizeRow (npMean0 rows) (npStd0 rows))
      from rfl,
    hmap,
    normalizeRow_getD _ _ _ j (by omega) (by simpa [npMean0] using hj)
      (by simpa [npStd0] using hj),
    npMean0_getD rows j hj, npStd0_getD rows j hj]

theorem getD_map_range {α : Type} (n d : ℕ) (f : ℕ → α) (a : α) (hd : d < n) :
    ((List.range n).map f).getD d a = f d := by
  rw [List.getD_eq_getElem _ _ (by simpa using hd)]
  simp

theorem length_filterByDomain {α : Type} (d : ℤ) :
    ∀ (xs : List α) (doms : List ℤ), xs.length = doms.length →
      (filterByDomain xs doms d).length = doms.countP (fun v => v == d)
  | [], [], _ => rfl
  | [], _ :: _, h => by simp at h
  | _ :: _, [], h => by simp at h
  | x :: xs, v :: doms, h => by
      have ih := length_filterByDomain d xs doms (by simpa using h)
      by_cases hv : v = d
      · simp [filterByDomain, List.filter_cons, hv, List.countP_cons, ih,
          filterByDomain] at ih ⊢
        omega
      · simp [filterByDomain, List.filter_cons, hv, List.countP_cons, ih,
          filterByDomain] at ih ⊢
        omega

theorem filterByDomain_eq_nil {α : Type} (xs : List α) (doms : List ℤ) (d : ℤ)
    (h : ∀ v ∈ doms, v ≠ d) : filterByDomain xs doms d = [] := by
  rw [filterByDomain, List.map_eq_nil_iff, List.filter_eq_nil_iff]
  intro p hp
  have hmem := List.of_mem_zip hp
  simpa using h p.2 hmem.2

theorem sum_indicator_range (n : ℕ) (a : ℤ) :
    ((List.range n).map (fun (d : ℕ) => if a = (d : ℤ) then 1 else 0)).sum
      = if 0 ≤ a ∧ a < (n : ℤ) then 1 else 0 := by
  induction n with
  | zero =>
      simp only [List.range_zero, List.map_nil, List.sum_nil, Nat.cast_zero]
      split_ifs with h
      · omega
      · rfl
  | succ n ih =>
      rw [List.range_succ, List.map_append, List.sum_append, ih]
      simp only [List.map_cons, List.map_nil, List.sum_cons, List.sum_nil]
      push_cast
      split_ifs <;> omega

theorem sum_countP_range (l : List ℤ) (n : ℕ) :
    ((List.range n).map (fun (d : ℕ) => l.countP (fun v => v == (d : ℤ)))).sum
      = l.countP (fun v => decide (0 ≤ v ∧ v < (n : ℤ))) := by
  induction l with
  | nil => simp
  | cons a l ih =>
      have hsplit : ∀ d : ℕ, (a :: l).countP (fun v => v == (d : ℤ))
          = l.countP (fun v => v == (d : ℤ)) + (if a = (d : ℤ) then 1 else 0) := by
        intro d
        rw [List.countP_cons]
        by_cases h : a = (d : ℤ) <;> simp [h]
      calc ((List.range n).map (fun (d : ℕ) => (a :: l).countP (fun v => v == (d : ℤ)))).sum
          = ((List.range n).map (fun (d : ℕ) =>
              l.countP (fun v => v == (d : ℤ)) + (if a = (d : ℤ) then 1 else 0))).sum := by
            exact congrArg List.sum (List.map_congr_left (fun d _ => hsplit d))
        _ = ((List.range n).map (fun (d : ℕ) => l.countP (fun v => v == (d : ℤ)))).sum
              + ((List.range n).map (fun (d : ℕ) => if a = (d : ℤ) then 1 else 0)).sum := by
            rw [List.sum_map_add]
        _ = l.countP (fun v => decide (0 ≤ v ∧ v < (n : ℤ)))
              + (if 0 ≤ a ∧ a < (n : ℤ) then 1 else 0) := by
            rw [ih, sum_indicator_range]
        _ = (a :: l).countP (fun v => decide (0 ≤ v ∧ v < (n : ℤ))) := by
            rw [List.countP_cons]
            by_cases h : 0 ≤ a ∧ a < (n : ℤ) <;> simp [h]

/-! ### Claims -/

/-- C1 (amended): normalization in the dataset loader is global, not
per-domain: each dataset's data rows are drawn from `normalizeData` of
the full data array, and every normalized entry is
`(x - mean) / std` with the mean and the standard deviation of its
column computed over the samples of all domains together. -/
theorem C1_global_normalization (pkl : DataPkl) (envs : List ℤ)
    (h1 : pkl.data.length = pkl.domain.length)
    (h2 : pkl.label.length = pkl.domain.length)
    (i j : ℕ) (hi : i < pkl.data.length) (hj : j < width pkl.data)
    (hrow : (pkl.data.getD i []).length = width pkl.data) :
    (∃ ds, initSine (some (some pkl)) envs = .ok ds ∧
      ∀ d : ℕ, d < envs.length →
        (ds.getD d default).x
          = filterByDomain (normalizeData pkl.data) pkl.domain (d : ℤ)) ∧
    ((normalizeData pkl.data).getD i []).getD j 0
      = ((pkl.data.getD i []).getD j 0 - colMean (column pkl.data j))
          / colStd (column pkl.data j) := by
  refine ⟨⟨_, initSine_ok pkl envs h1 h2, fun d hd => ?_⟩,
    normalizeData_getD pkl.data i j hi hj hrow⟩
  rw [getD_map_range envs.length d _ default hd]

/-- C1 witness: the amended statement evaluated on the concrete
`examplePkl` at entry `(0, 0)`. -/
theorem C1_global_normalization_witness :
    examplePkl.data.length = examplePkl.domain.length ∧
    examplePkl.label.length = examplePkl.domain.length ∧
    0 < examplePkl.data.length ∧ 0 < width examplePkl.data ∧
    (examplePkl.data.getD 0 []).length = width examplePkl.data ∧
    ((∃ ds, initSine (some (some examplePkl)) [0, 1] = .ok ds ∧
      ∀ d : ℕ, d < ([(0 : ℤ), 1]).length →
        (ds.getD d default).x
          = filterByDomain (normalizeData examplePkl.data) examplePkl.domain (d : ℤ)) ∧
    ((normalizeData examplePkl.data).getD 0 []).getD 0 0
      = ((examplePkl.data.getD 0 []).getD 0 0 - colMean (column examplePkl.data 0))
          / colStd (column examplePkl.data 0)) :=
  ⟨rfl, rfl, by simp [examplePkl], by simp [examplePkl, width],
    by simp [examplePkl, width],
    C1_global_normalization examplePkl [0, 1] rfl rfl 0 0
      (by simp [examplePkl]) (by simp [examplePkl, width])
      (by simp [examplePkl, width])⟩

theorem examplePkl_normalized :
    normalizeData examplePkl.data =
      [[(0 - 6) / Real.sqrt 26], [(2 - 6) / Real.sqrt 26],
       [(10 - 6) / Real.sqrt 26], [(12 - 6) / Real.sqrt 26]] := by
  have hcol : column [[(0 : ℝ)], [2], [10], [12]] 0 = [0, 2, 10, 12] := rfl
  have hmean : colMean [(0 : ℝ), 2, 10, 12] = 6 := by
    norm_num [colMean]
  have hvar : colVar [(0 : ℝ), 2, 10, 12] = 26 := by
    norm_num [colVar, hmean]
  have hstd : colStd [(0 : ℝ), 2, 10, 12] = Real.sqrt 26 := by
    rw [colStd, hvar]
  simp [normalizeData, npMean0, npStd0, width, examplePkl, hcol, hmean, hstd,
    normalizeRow, List.range_succ]

theorem examplePkl_perDomain0 :
    perDomainNormalizedData examplePkl 0 = [[-1], [1]] := by
  have hfil : filterByDomain examplePkl.data examplePkl.domain 0 = [[0], [2]] := by
    simp [filterByDomain, examplePkl]
  have hcol : column [[(0 : ℝ)], [2]] 0 = [0, 2] := rfl
  have hmean : colMean [(0 : ℝ), 2] = 1 := by
    norm_num [colMean]
  have hvar : colVar [(0 : ℝ), 2] = 1 := by
    norm_num [colVar, hmean]
  have hstd : colStd [(0 : ℝ), 2] = 1 := by
    rw [colStd, hvar, Real.sqrt_one]
  rw [perDomainNormalizedData, hfil]
  simp [normalizeData, npMean0, npStd0, width, hcol, hmean, hstd,
    normalizeRow, List.range_succ]
  norm_num

/-- C1 counterexample: on `examplePkl` the loader's normalized domain-0
rows disagree with the rows obtained by normalizing domain 0 with its own
statistics, because the loader normalizes with the mean 6 and the
standard deviation `sqrt 26` of all four samples. -/
theorem C1_per_domain_counterexample :
    ¬ ∀ ds, initSine (some (some examplePkl)) [0, 1] = .ok ds →
        (ds.getD 0 default).x = perDomainNormalizedData examplePkl 0 := by
  intro h
  have hthis := h _ (initSine_ok examplePkl [0, 1] rfl rfl)
  rw [examplePkl_perDomain0] at hthis
  rw [getD_map_range ([(0 : ℤ), 1]).length 0 _ default (by norm_num)] at hthis
  have hfil : filterByDomain (normalizeData examplePkl.data) examplePkl.domain 0
      = [[(0 - 6) / Real.sqrt 26], [(2 - 6) / Real.sqrt 26]] := by
    rw [examplePkl_normalized]
    simp [filterByDomain, examplePkl]
  simp only [Nat.cast_zero] at hthis
  rw [hfil] at hthis
  have hkey : (0 - 6) / Real.sqrt 26 = -1 := by
    have hc := congrArg (fun l => (l.getD 0 []).getD 0 0) hthis
    simpa using hc
  have hpos : (0 : ℝ) < Real.sqrt 26 := Real.sqrt_pos.mpr (by norm_num)
  have h6 : Real.sqrt 26 = 6 := by
    field_simp at hkey
    linarith
  have hsq := Real.sq_sqrt (by norm_num : (0 : ℝ) ≤ 26)
  rw [h6] at hsq
  norm_num at hsq

/-- C2: for every cached pickle and every domain index `d`, the `d`-th
dataset built by `MultipleEnvironmentSine.__init__` contains exactly the
(normalized) samples whose `domain` entry equals `d`, with data cast to
float32 and labels cast to int64 (identities in this real/integer-valued
model), in their original order. -/
theorem C2_partition_by_domain (pkl : DataPkl) (envs : List ℤ)
    (h1 : pkl.data.length = pkl.domain.length)
    (h2 : pkl.label.length = pkl.domain.length) :
    initSine (some (some pkl)) envs =
      .ok ((List.range envs.length).map (fun (d : ℕ) =>
        { x := filterByDomain (normalizeData pkl.data) pkl.domain (d : ℤ),
          y := filterByDomain pkl.label pkl.domain (d : ℤ) })) :=
  initSine_ok pkl envs h1 h2

/-- C2 witness: the characterization evaluated on a concrete two-sample,
two-domain pickle. -/
theorem C2_partition_by_domain_witness :
    (DataPkl.mk [[1], [2]] [5, 6] [0, 1]).data.length
        = (DataPkl.mk [[1], [2]] [5, 6] [0, 1]).domain.length ∧
    (DataPkl.mk [[1], [2]] [5, 6] [0, 1]).label.length
        = (DataPkl.mk [[1], [2]] [5, 6] [0, 1]).domain.length ∧
    initSine (some (some (DataPkl.mk [[1], [2]] [5, 6] [0, 1]))) [0, 1] =
      .ok ((List.range ([(0 : ℤ), 1]).length).map (fun (d : ℕ) =>
        { x := filterByDomain
            (normalizeData (DataPkl.mk [[1], [2]] [5, 6] [0, 1]).data)
            [0, 1] (d : ℤ),
          y := filterByDomain [5, 6] [0, 1] (d : ℤ) })) :=
  ⟨rfl, rfl,
    C2_partition_by_domain (DataPkl.mk [[1], [2]] [5, 6] [0, 1]) [0, 1] rfl rfl⟩

theorem colMean_const (xs : List ℝ) (c : ℝ) (hxs : xs ≠ [])
    (hconst : ∀ x ∈ xs, x = c) : colMean xs = c := by
  have hL : (xs.length : ℝ) ≠ 0 := by
    simpa using hxs
  have hrep : xs = List.replicate xs.length c := List.eq_replicate_length.mpr hconst
  rw [colMean, hrep, List.sum_replicate, List.length_replicate, nsmul_eq_mul]
  exact mul_div_cancel_left₀ c hL

theorem colVar_const (xs : List ℝ) (c : ℝ) (hxs : xs ≠ [])
    (hconst : ∀ x ∈ xs, x = c) : colVar xs = 0 := by
  have hz : (xs.map (fun x => (x - colMean xs) ^ 2)).sum = 0 := by
    have hrep : xs.map (fun x => (x - colMean xs) ^ 2)
        = List.replicate (xs.map (fun x => (x - colMean xs) ^ 2)).length 0 := by
      refine List.eq_replicate_length.mpr (fun b hb => ?_)
      obtain ⟨x, hx, rfl⟩ := List.mem_map.mp hb
      rw [hconst x hx, colMean_const xs c hxs hconst]
      ring
    rw [hrep, List.sum_replicate, smul_zero]
  rw [colVar, hz, zero_div]

/-- C10: in any cached dataset whose column `j` is constant, the
standard deviation the loader divides by is exactly `0`, and the
normalization expression still forms the quotient `(x - mean) / 0` for
every entry of that column — there is no guard and no error path.  (In
the IEEE arithmetic the Python code runs in, such a quotient is a
non-finite `inf`/`-inf`/`nan` value; the real-valued model registers the
same unguarded zero divisor.) -/
theorem C10_unguarded_normalization (rows : List (List ℝ)) (j : ℕ) (c : ℝ)
    (hne : rows ≠ []) (hconst : ∀ r ∈ rows, r.getD j 0 = c) :
    colStd (column rows j) = 0 ∧
    ∀ i, i < rows.length → j < width rows →
      (rows.getD i []).length = width rows →
      ((normalizeData rows).getD i []).getD j 0
        = ((rows.getD i []).getD j 0 - colMean (column rows j)) / 0 := by
  have hcolne : column rows j ≠ [] := by
    simpa [column, List.map_eq_nil_iff] using hne
  have hcolconst : ∀ x ∈ column rows j, x = c := by
    intro x hx
    obtain ⟨r, hr, rfl⟩ := List.mem_map.mp hx
    exact hconst r hr
  have hstd : colStd (column rows j) = 0 := by
    rw [colStd, colVar_const (column rows j) c hcolne hcolconst, Real.sqrt_zero]
  refine ⟨hstd, fun i hi hj hrow => ?_⟩
  rw [normalizeData_getD rows i j hi hj hrow, hstd]

/-- C10 witness: a one-sample dataset whose single column is constant. -/
theorem C10_unguarded_normalization_witness :
    ([[(1 : ℝ)]] : List (List ℝ)) ≠ [] ∧
    (∀ r ∈ ([[(1 : ℝ)]] : List (List ℝ)), r.getD 0 0 = 1) ∧
    (colStd (column [[(1 : ℝ)]] 0) = 0 ∧
    ∀ i, i < ([[(1 : ℝ)]] : List (List ℝ)).length → 0 < width [[(1 : ℝ)]] →
      (([[(1 : ℝ)]] : List (List ℝ)).getD i []).length = width [[(1 : ℝ)]] →
      ((normalizeData [[(1 : ℝ)]]).getD i []).getD 0 0
        = ((([[(1 : ℝ)]] : List (List ℝ)).getD i []).getD 0 0
            - colMean (column [[(1 : ℝ)]] 0)) / 0) :=
  ⟨by simp, by simp,
    C10_unguarded_normalization [[(1 : ℝ)]] 0 1 (by simp) (by simp)⟩

/-- C9: `ToySine` always builds exactly 24 per-domain datasets; samples
whose `domain` value lies outside `0..23` end up in none of them (the
total number of kept samples is the count of in-range domains), and a
domain index absent from the pickle yields an empty dataset at that
position. -/
theorem C9_toysine_24_domains (pkl : DataPkl)
    (h1 : pkl.data.length = pkl.domain.length)
    (h2 : pkl.label.length = pkl.domain.length) :
    ∃ ds, initToySine (some (some pkl)) = .ok ds ∧
      ds.length = 24 ∧
      (ds.map (fun t => t.y.length)).sum
        = pkl.domain.countP (fun v => decide (0 ≤ v ∧ v < (24 : ℤ))) ∧
      ∀ d : ℕ, d < 24 → (∀ v ∈ pkl.domain, v ≠ (d : ℤ)) →
        ds.getD d default = { x := [], y := [] } := by
  have hlen24 : toySineEnvironments.length = 24 := by
    simp [toySineEnvironments]
  refine ⟨_, by rw [initToySine]; exact initSine_ok pkl toySineEnvironments h1 h2,
    ?_, ?_, ?_⟩
  · rw [List.length_map, List.length_range, hlen24]
  · rw [List.map_map, hlen24]
    have hcong : ∀ d ∈ List.range 24,
        ((fun t : TensorDS => t.y.length) ∘ (fun (d : ℕ) =>
          TensorDS.mk (filterByDomain (normalizeData pkl.data) pkl.domain (d : ℤ))
            (filterByDomain pkl.label pkl.domain (d : ℤ)))) d
          = pkl.domain.countP (fun v => v == (d : ℤ)) := by
      intro d _
      exact length_filterByDomain (d : ℤ) pkl.label pkl.domain h2
    rw [List.map_congr_left hcong]
    exact sum_countP_range pkl.domain 24
  · intro d hd habsent
    rw [getD_map_range toySineEnvironments.length d _ default (by rw [hlen24]; exact hd)]
    rw [filterByDomain_eq_nil _ _ _ habsent, filterByDomain_eq_nil _ _ _ habsent]

/-- C9 witness: a pickle holding one in-range sample (domain 0) and one
out-of-range sample (domain 30); domains 1..23 are absent. -/
theorem C9_toysine_24_domains_witness :
    (DataPkl.mk [[1], [2]] [5, 6] [0, 30]).data.length
        = (DataPkl.mk [[1], [2]] [5, 6] [0, 30]).domain.length ∧
    (DataPkl.mk [[1], [2]] [5, 6] [0, 30]).label.length
        = (DataPkl.mk [[1], [2]] [5, 6] [0, 30]).domain.length ∧
    (∃ ds, initToySine (some (some (DataPkl.mk [[1], [2]] [5, 6] [0, 30]))) = .ok ds ∧
      ds.length = 24 ∧
      (ds.map (fun t => t.y.length)).sum
        = (DataPkl.mk [[1], [2]] [5, 6] [0, 30]).domain.countP
            (fun v => decide (0 ≤ v ∧ v < (24 : ℤ))) ∧
      ∀ d : ℕ, d < 24 →
        (∀ v ∈ (DataPkl.mk [[1], [2]] [5, 6] [0, 30]).domain, v ≠ (d : ℤ)) →
        ds.getD d default = { x := [], y := [] }) :=
  ⟨rfl, rfl, C9_toysine_24_domains (DataPkl.mk [[1], [2]] [5, 6] [0, 30]) rfl rfl⟩

/-- C7: the loader never generates data: a missing `root` raises
`ValueError('Data directory not specified!')` and a missing cache file
raises `NotImplementedError`; in both cases the constructor fails before
any dataset is built (the result is an error, not a dataset list). -/
theorem C7_error_handling :
    (∀ envs : List ℤ,
      initSine none envs = .error (.valueError "Data directory not specified!")) ∧
    (∀ envs : List ℤ, initSine (some none) envs = .error .notImplementedError) :=
  ⟨fun _ => rfl, fun _ => rfl⟩

/-- C3: `LinearFeatExtractor.forward` is conditional on depth: with
`mlp_depth <= 1` the output is exactly the input linear layer applied to
`x`; with `mlp_depth > 1` it is the input layer, dropout and ReLU, then
each hidden layer followed by dropout and ReLU, then the output layer. -/
theorem C3_conditional_depth_forward (m : LinearFeatExtractor) (x : List ℝ) :
    (m.num_layers ≤ 1 → m.forward x = m.input.apply x) ∧
    (1 < m.num_layers →
      m.forward x = m.output.apply
        (m.hiddens.foldl (fun a hidden => relu (m.dropout (hidden.apply a)))
          (relu (m.dropout (m.input.apply x))))) := by
  constructor
  · intro h
    rw [LinearFeatExtractor.forward, if_neg (by omega)]
  · intro h
    rw [LinearFeatExtractor.forward, if_pos h]

/-- C3 witness: the two branches on a depth-1 and a depth-2 instance. -/
theorem C3_conditional_depth_forward_witness :
    (feShallow.num_layers ≤ 1 ∧ feShallow.forward [1] = feShallow.input.apply [1]) ∧
    (1 < feDeep.num_layers ∧
      feDeep.forward [1] = feDeep.output.apply
        (feDeep.hiddens.foldl (fun a hidden => relu (feDeep.dropout (hidden.apply a)))
          (relu (feDeep.dropout (feDeep.input.apply [1]))))) :=
  ⟨⟨by decide, (C3_conditional_depth_forward feShallow [1]).1 (by decide)⟩,
   ⟨by decide, (C3_conditional_depth_forward feDeep [1]).2 (by decide)⟩⟩

theorem adaptLoop_get {W : Type} (tmp init : ℕ → W) :
    ∀ nc i : ℕ, i < nc → adaptLoop tmp init nc i = tmp (i % 3) := by
  intro nc
  induction nc with
  | zero => exact fun i h => absurd h (Nat.not_lt_zero i)
  | succ n ih =>
      intro i h
      rw [adaptLoop, List.range_succ, List.foldl_append]
      simp only [List.foldl_cons, List.foldl_nil]
      by_cases hin : i = n
      · subst hin
        simp [updSlice]
      · have hlt : i < n := by omega
        simpa [updSlice, hin, adaptLoop] using ih i hlt

/-- C4: whenever `input_shape[0] != 3`, `conv1` becomes a bias-free 7x7
stride-2 padding-3 convolution on `nc` input channels whose weight slice
for channel `i` is the pretrained slice for channel `i % 3`; whenever
`input_shape[0] == 3`, `conv1` is left unchanged. -/
theorem C4_channel_adaptation {W : Type} (nc : ℕ) (conv1 : Conv2dSpec W)
    (freshW : ℕ → W) :
    (nc ≠ 3 →
      (adaptConv1 nc conv1 freshW).in_channels = nc ∧
      (adaptConv1 nc conv1 freshW).out_channels = 64 ∧
      (adaptConv1 nc conv1 freshW).kernel_size = (7, 7) ∧
      (adaptConv1 nc conv1 freshW).stride = (2, 2) ∧
      (adaptConv1 nc conv1 freshW).padding = (3, 3) ∧
      (adaptConv1 nc conv1 freshW).hasBias = false ∧
      ∀ i, i < nc →
        (adaptConv1 nc conv1 freshW).weight i = conv1.weight (i % 3)) ∧
    (nc = 3 → adaptConv1 nc conv1 freshW = conv1) := by
  constructor
  · intro h
    rw [adaptConv1]
    rw [if_pos h]
    exact ⟨rfl, rfl, rfl, rfl, rfl, rfl,
      fun i hi => adaptLoop_get conv1.weight freshW nc i hi⟩
  · intro h
    simp [adaptConv1, h]

/-- C4 witness: a one-channel adaptation of the stand-in pretrained
convolution. -/
theorem C4_channel_adaptation_witness :
    (1 : ℕ) ≠ 3 ∧
    ((adaptConv1 1 exConv exFresh).in_channels = 1 ∧
     (adaptConv1 1 exConv exFresh).out_channels = 64 ∧
     (adaptConv1 1 exConv exFresh).kernel_size = (7, 7) ∧
     (adaptConv1 1 exConv exFresh).stride = (2, 2) ∧
     (adaptConv1 1 exConv exFresh).padding = (3, 3) ∧
     (adaptConv1 1 exConv exFresh).hasBias = false ∧
     ∀ i, i < 1 →
       (adaptConv1 1 exConv exFresh).weight i = exConv.weight (i % 3)) :=
  ⟨by decide, (C4_channel_adaptation 1 exConv exFresh).1 (by decide)⟩

/-- C6: the identity passthrough is a true identity and reports
`n_outputs = input_shape[-1]`. -/
theorem C6_identity_passthrough (input_shape : List ℕ) (output_dim : ℕ)
    {α : Type} (x : α) :
    (IdentityFE.init input_shape output_dim).forward x = x ∧
    (IdentityFE.init input_shape output_dim).n_outputs
      = input_shape.getLastD 0 :=
  ⟨rfl, rfl⟩

theorem freeze_bn_frozen (ms : List TModule) (m : TModule)
    (hm : m ∈ freeze_bn ms) (hbn : m.isBatchNorm = true) : m.training = false := by
  obtain ⟨m0, hm0, heq⟩ := List.mem_map.mp hm
  by_cases h : m0.isBatchNorm
  · rw [← heq]
    simp [h]
  · rw [← heq] at hbn
    simp [h] at hbn

/-- C8: after `ResNet.__init__` and after every `ResNet.train(mode)`,
every `nn.BatchNorm2d` submodule of `self.network` has `training = False`,
whatever `mode` was. -/
theorem C8_frozen_batchnorm (ms : List TModule) (mode : Bool) (m : TModule) :
    (m ∈ resnetInitModules ms → m.isBatchNorm = true → m.training = false) ∧
    (m ∈ resnetTrain mode ms → m.isBatchNorm = true → m.training = false) :=
  ⟨fun hm hbn => freeze_bn_frozen ms m hm hbn,
   fun hm hbn => freeze_bn_frozen (setTrainAll mode ms) m hm hbn⟩

/-- C8 witness: a batchnorm module that started in training mode is in
eval mode after construction and after `train(True)`. -/
theorem C8_frozen_batchnorm_witness :
    (TModule.mk true false ∈ resnetInitModules [TModule.mk true true] ∧
      (TModule.mk true false).isBatchNorm = true ∧
      (TModule.mk true false).training = false) ∧
    (TModule.mk true false ∈ resnetTrain true [TModule.mk true true] ∧
      (TModule.mk true false).isBatchNorm = true ∧
      (TModule.mk true false).training = false) :=
  ⟨⟨by decide, rfl,
      (C8_frozen_batchnorm [TModule.mk true true] true (TModule.mk true false)).1
        (by decide) rfl⟩,
   ⟨by decide, rfl,
      (C8_frozen_batchnorm [TModule.mk true true] true (TModule.mk true false)).2
        (by decide) rfl⟩⟩

theorem mkLinear_apply_length (nIn nOut : ℕ) (w : ℕ → ℕ → ℝ) (b : ℕ → ℝ)
    (x : List ℝ) : ((mkLinear nIn nOut w b).apply x).length = nOut := by
  simp [mkLinear, Linear.apply]

/-- C5 counterexample: `LinearFeatExtractor` built with `mlp_depth = 1`,
`mlp_width = 5`, `output_dim = 3` maps the well-shaped batch row `[0, 0]`
to a 5-dimensional vector although `n_outputs = 3`. -/
theorem C5_counterexample : (feC5.forward [0, 0]).length ≠ feC5.n_outputs := by
  have hfwd : feC5.forward [0, 0] = feC5.input.apply [0, 0] := by
    rw [LinearFeatExtractor.forward, if_neg (by decide)]
  rw [hfwd]
  have hlen : (feC5.input.apply [0, 0]).length = 5 :=
    mkLinear_apply_length 2 5 (fun _ _ => 0) (fun _ => 0) [0, 0]
  rw [hlen]
  decide

/-- C5 (amended): the last output dimension equals `n_outputs` for
`MNIST_CNN` (at the shape level) and for `Identity` on well-shaped
inputs, and for `LinearFeatExtractor` whenever `mlp_depth > 1`; whenever
`mlp_depth <= 1` the last output dimension is `mlp_width` instead. -/
theorem C5_n_outputs (input_shape : List ℕ) (output_dim : ℕ) (sh : TShape)
    (xI : List ℝ) (hxI : xI.length = input_shape.getLastD 0)
    (mlp_depth : ℤ) (mlp_width : ℕ) (drop : List ℝ → List ℝ)
    (wI : ℕ → ℕ → ℝ) (bI : ℕ → ℝ) (wH : ℕ → ℕ → ℕ → ℝ) (bH : ℕ → ℕ → ℝ)
    (wO : ℕ → ℕ → ℝ) (bO : ℕ → ℝ) (x : List ℝ) :
    ((MNIST_CNN.init input_shape output_dim).forwardShape sh).2
        = (MNIST_CNN.init input_shape output_dim).n_outputs ∧
    ((IdentityFE.init input_shape output_dim).forward xI).length
        = (IdentityFE.init input_shape output_dim).n_outputs ∧
    (1 < mlp_depth →
      ((LinearFeatExtractor.init input_shape output_dim mlp_depth mlp_width
          drop wI bI wH bH wO bO).forward x).length
        = (LinearFeatExtractor.init input_shape output_dim mlp_depth mlp_width
            drop wI bI wH bH wO bO).n_outputs) ∧
    (mlp_depth ≤ 1 →
      ((LinearFeatExtractor.init input_shape output_dim mlp_depth mlp_width
          drop wI bI wH bH wO bO).forward x).length = mlp_width) := by
  refine ⟨?_, ?_, fun h => ?_, fun h => ?_⟩
  · simp [MNIST_CNN.init, MNIST_CNN.forwardShape, conv2dShape]
  · exact hxI
  · rw [LinearFeatExtractor.forward]
    simp only [LinearFeatExtractor.init]
    rw [if_pos h]
    exact mkLinear_apply_length mlp_width output_dim wO bO _
  · rw [LinearFeatExtractor.forward]
    simp only [LinearFeatExtractor.init]
    rw [if_neg (by omega)]
    exact mkLinear_apply_length (input_shape.getLastD 0) mlp_width wI bI x

/-- C5 witness: the amended statement on concrete modules (a 1-channel
CNN with `output_dim = 64`, an identity over `input_shape = [1]`, and the
depth-2 constructor output `feDeepInit`). -/
theorem C5_n_outputs_witness :
    ([(3 : ℝ)]).length = ([1] : List ℕ).getLastD 0 ∧
    (((MNIST_CNN.init [1] 3).forwardShape (TShape.mk 4 1 28 28)).2
        = (MNIST_CNN.init [1] 3).n_outputs ∧
      ((IdentityFE.init [1] 3).forward [(3 : ℝ)]).length
        = (IdentityFE.init [1] 3).n_outputs ∧
      (1 < (2 : ℤ) →
        ((LinearFeatExtractor.init [1] 3 2 4 (fun v => v)
            (fun _ _ => 0) (fun _ => 0) (fun _ _ _ => 0) (fun _ _ => 0)
            (fun _ _ => 0) (fun _ => 0)).forward [0]).length
          = (LinearFeatExtractor.init [1] 3 2 4 (fun v => v)
              (fun _ _ => 0) (fun _ => 0) (fun _ _ _ => 0) (fun _ _ => 0)
              (fun _ _ => 0) (fun _ => 0)).n_outputs) ∧
      ((2 : ℤ) ≤ 1 →
        ((LinearFeatExtractor.init [1] 3 2 4 (fun v => v)
            (fun _ _ => 0) (fun _ => 0) (fun _ _ _ => 0) (fun _ _ => 0)
            (fun _ _ => 0) (fun _ => 0)).forward [0]).length = 4)) :=
  ⟨rfl,
    C5_n_outputs [1] 3 (TShape.mk 4 1 28 28) [(3 : ℝ)] rfl 2 4 (fun v => v)
      (fun _ _ => 0) (fun _ => 0) (fun _ _ _ => 0) (fun _ _ => 0)
      (fun _ _ => 0) (fun _ => 0) [0]⟩

end SDEEDG
